import Mathlib

/-!
Verification development for the context-generator repository.

The repository scans a directory tree, excludes paths matching glob
patterns (grouped in a static catalog of categories), and emits the
contents of the remaining text files in a delimited format, or reports
the included/excluded split in a dry-run mode.

This file gives a shallow embedding of:
  * the glob matcher of the Go standard library (path/filepath Match with
    the Unix separator), which the filter calls for every pattern probe —
    modelled over lists of characters (Go iterates bytes; all catalog
    patterns and the inputs relevant here are ASCII, where the two views
    coincide);
  * the filter: the exclusion catalog, GetFilteredPatterns,
    GetCategoryForPattern, GetExclusionReason and ShouldExclude;
  * the scanner: Scan (render mode), processFile, DryRun and isTextFile,
    over an explicit file-system tree.  Output is modelled as the list of
    written lines (one entry per write of the Go code), and the walk also
    returns the trace of visited entries (one entry per invocation of the
    walk callback).
-/

/-! ### Glob matcher: path/filepath Match (Unix separator) -/

/-- Result of matchChunk: a bad pattern, a failed match, or success with
the unconsumed remainder of the candidate string. -/
inductive ChunkRes where
  | err : ChunkRes
  | nomatch : ChunkRes
  | ok : List Char → ChunkRes
deriving DecidableEq

/-- Result of parsing the ranges of a character class: bad pattern, or the
match flag together with the chunk remainder after the closing bracket. -/
inductive RangeRes where
  | err : RangeRes
  | ok : Bool → List Char → RangeRes
deriving DecidableEq

/-- getEsc of the Go matcher: read a possibly backslash-escaped character
out of a character-class chunk.  Fails on an empty chunk, on a leading
dash or closing bracket, on a trailing backslash, and when nothing
follows the character read (a class is never closed there). -/
def getEsc : List Char → Option (Char × List Char)
  | [] => none
  | c :: rest =>
    if c = '-' ∨ c = ']' then none
    else if c = '\\' then
      match rest with
      | [] => none
      | r :: rest2 => if rest2.isEmpty then none else some (r, rest2)
    else if rest.isEmpty then none else some (c, rest)

theorem getEsc_len {l : List Char} {r : Char} {rest : List Char}
    (h : getEsc l = some (r, rest)) : rest.length < l.length := by
  match l with
  | [] => simp [getEsc] at h
  | c :: tl =>
    simp only [getEsc] at h
    split at h
    · exact absurd h (by simp)
    · split at h
      · match tl with
        | [] => simp at h
        | r2 :: tl2 =>
          simp only at h
          split at h
          · exact absurd h (by simp)
          · simp only [Option.some.injEq, Prod.mk.injEq] at h
            simp only [← h.2, List.length_cons]
            omega
      · split at h
        · exact absurd h (by simp)
        · simp only [Option.some.injEq, Prod.mk.injEq] at h
          simp only [← h.2, List.length_cons]
          omega

/-- Range-parsing loop of the Go matcher's matchChunk for a character
class: consumes character ranges until the closing bracket (which must
close a non-empty class), accumulating whether the class character r
falls in any range. -/
def parseRanges (r : Char) (negated : Bool) (chunk : List Char)
    (acc : Bool) (nrange : Nat) : RangeRes :=
  if chunk.head? = some ']' ∧ 0 < nrange then .ok acc chunk.tail
  else
    match hlo : getEsc chunk with
    | none => .err
    | some (lo, c1) =>
      if c1.head? = some '-' then
        match hhi : getEsc c1.tail with
        | none => .err
        | some (hi, c2) =>
          parseRanges r negated c2 (acc || (lo ≤ r && r ≤ hi)) (nrange + 1)
      else
        parseRanges r negated c1 (acc || (lo ≤ r && r ≤ lo)) (nrange + 1)
termination_by chunk.length
decreasing_by
  · have h1 := getEsc_len hlo
    have h2 := getEsc_len hhi
    have h3 : c1.tail.length ≤ c1.length := by
      cases c1 <;> simp
    omega
  · have h1 := getEsc_len hlo
    omega

theorem parseRanges_le_aux (n : Nat) :
    ∀ (chunk : List Char) (r : Char) (negated acc : Bool) (nrange : Nat)
      (m : Bool) (rest : List Char), chunk.length ≤ n →
      parseRanges r negated chunk acc nrange = .ok m rest →
      rest.length < chunk.length := by
  induction n with
  | zero =>
    intro chunk r negated acc nrange m rest hlen h
    have hc : chunk = [] := by
      cases chunk with
      | nil => rfl
      | cons a tl => simp at hlen
    subst hc
    rw [parseRanges] at h
    simp [getEsc] at h
  | succ n ih =>
    intro chunk r negated acc nrange m rest hlen h
    rw [parseRanges] at h
    split at h
    · next hbr =>
      simp only [RangeRes.ok.injEq] at h
      obtain ⟨hne, -⟩ := hbr
      cases chunk with
      | nil => simp at hne
      | cons a tl => simp [← h.2]
    · split at h
      · exact absurd h (by simp)
      · next lo c1 hlo =>
        have h1 := getEsc_len hlo
        split at h
        · split at h
          · exact absurd h (by simp)
          · next hi c2 hhi =>
            have h2 := getEsc_len hhi
            have h3 : c1.tail.length ≤ c1.length := by cases c1 <;> simp
            have := ih c2 r negated _ _ m rest (by omega) h
            omega
        · have := ih c1 r negated _ _ m rest (by omega) h
          omega

theorem parseRanges_le {r : Char} {negated : Bool} {chunk : List Char}
    {acc : Bool} {nrange : Nat} {m : Bool} {rest : List Char}
    (h : parseRanges r negated chunk acc nrange = .ok m rest) :
    rest.length < chunk.length :=
  parseRanges_le_aux chunk.length chunk r negated acc nrange m rest le_rfl h

/-- Split a possibly negated character class: a leading caret negates. -/
def negSplit : List Char → Bool × List Char
  | '^' :: rest => (true, rest)
  | l => (false, l)

theorem negSplit_le (l : List Char) : (negSplit l).2.length ≤ l.length := by
  match l with
  | [] => simp [negSplit]
  | c :: rest =>
    rw [negSplit.eq_def]
    split <;> simp_all

/-- The character-class head read of the Go matcher: in failed mode
nothing is consumed; otherwise the first candidate character is read and
consumed (the zero character stands for the unread rune of Go's failed
mode, whose value is never used). -/
def classR (failed : Bool) (s : List Char) : Char × List Char :=
  if failed then (Char.ofNat 0, s)
  else
    match s with
    | [] => (Char.ofNat 0, [])
    | a :: as => (a, as)

theorem classR_le (failed : Bool) (s : List Char) :
    (classR failed s).2.length ≤ s.length := by
  unfold classR
  split
  · simp
  · cases s <;> simp

/-- The result of parseRanges packaged with the fact that the remaining
chunk got strictly shorter; used so that the recursion of matchChunk is
visibly well founded. -/
inductive RangeResB (bound : Nat) where
  | err : RangeResB bound
  | ok : Bool → (rest : List Char) → rest.length < bound → RangeResB bound

def parseRangesB (r : Char) (negated : Bool) (chunk : List Char)
    (acc : Bool) (nrange : Nat) : RangeResB chunk.length :=
  match h : parseRanges r negated chunk acc nrange with
  | .err => .err
  | .ok m rest => .ok m rest (parseRanges_le h)

/-- matchChunk of the Go matcher: match a chunk (no stars) against the
beginning of the candidate, returning the unconsumed remainder on
success.  After a failure it keeps parsing the chunk so that syntax
errors are still detected (the failed flag); on failure the candidate is
left untouched.  Go reads bytes by index; here head?/tail stand for the
index accesses, and the branch order follows the Go switch. -/
def matchChunk (chunk s : List Char) (failed0 : Bool) : ChunkRes :=
  match chunk with
  | [] => if failed0 then .nomatch else .ok s
  | c :: chunkRest =>
    if c = '[' then
      match parseRangesB (classR (failed0 || s.isEmpty) s).1
          (negSplit chunkRest).1 (negSplit chunkRest).2 false 0 with
      | .err => .err
      | .ok m c2 hlt =>
        matchChunk c2 (classR (failed0 || s.isEmpty) s).2
          ((failed0 || s.isEmpty) || (m == (negSplit chunkRest).1))
    else if c = '?' then
      if failed0 || s.isEmpty then matchChunk chunkRest s (failed0 || s.isEmpty)
      else matchChunk chunkRest s.tail (s.head? == some '/')
    else if c = '\\' then
      if chunkRest.isEmpty then .err
      else if failed0 || s.isEmpty then
        matchChunk chunkRest.tail s (failed0 || s.isEmpty)
      else matchChunk chunkRest.tail s.tail (!(chunkRest.head? == s.head?))
    else
      if failed0 || s.isEmpty then matchChunk chunkRest s (failed0 || s.isEmpty)
      else matchChunk chunkRest s.tail (!(some c == s.head?))
termination_by chunk.length
decreasing_by
  · have h2 := negSplit_le rest2
    simp only [List.length_cons]
    omega
  all_goals (simp only [List.length_cons, List.length_tail]; omega)

theorem tail_len_le (l : List Char) : l.tail.length ≤ l.length := by
  cases l <;> simp

theorem matchChunk_ok_le_aux (n : Nat) :
    ∀ (chunk s : List Char) (f : Bool) (t : List Char), chunk.length ≤ n →
      matchChunk chunk s f = .ok t → t.length ≤ s.length := by
  induction n with
  | zero =>
    intro chunk s f t hlen h
    have hc : chunk = [] := by
      cases chunk with
      | nil => rfl
      | cons a tl => simp at hlen
    subst hc
    rw [matchChunk] at h
    split at h
    · exact absurd h (by simp)
    · simp only [ChunkRes.ok.injEq] at h
      simp [← h]
  | succ n ih =>
    intro chunk s f t hlen h
    cases chunk with
    | nil =>
      rw [matchChunk] at h
      split at h
      · exact absurd h (by simp)
      · simp only [ChunkRes.ok.injEq] at h
        simp [← h]
    | cons c chunkRest =>
      simp only [List.length_cons] at hlen
      have htail := tail_len_le chunkRest
      have hstail := tail_len_le s
      rw [matchChunk] at h
      split at h
      · -- character class
        split at h
        · exact absurd h (by simp)
        · rename_i m c2 hlt heq
          have h2 := negSplit_le chunkRest
          have h3 := classR_le (f || s.isEmpty) s
          have := ih c2 _ _ t (by omega) h
          omega
      · split at h
        · -- question mark
          split at h
          · exact ih chunkRest s _ t (by omega) h
          · have := ih chunkRest s.tail _ t (by omega) h
            omega
        · split at h
          · -- backslash
            split at h
            · exact absurd h (by simp)
            · split at h
              · exact ih chunkRest.tail s _ t (by omega) h
              · have := ih chunkRest.tail s.tail _ t (by omega) h
                omega
          · -- ordinary character
            split at h
            · exact ih chunkRest s _ t (by omega) h
            · have := ih chunkRest s.tail _ t (by omega) h
              omega

theorem matchChunk_ok_le {chunk s : List Char} {f : Bool} {t : List Char}
    (h : matchChunk chunk s f = .ok t) : t.length ≤ s.length :=
  matchChunk_ok_le_aux chunk.length chunk s f t le_rfl h

/-- Leading-star consumption of the Go matcher's scanChunk. -/
def dropStars : List Char → Bool × List Char
  | [] => (false, [])
  | c :: rest => if c = '*' then (true, (dropStars rest).2) else (false, c :: rest)

theorem dropStars_le (l : List Char) : (dropStars l).2.length ≤ l.length := by
  induction l with
  | nil => simp [dropStars]
  | cons c rest ih =>
    rw [dropStars]
    split
    · simp only [List.length_cons]
      omega
    · simp

theorem dropStars_true_lt (l : List Char) :
    (dropStars l).1 = true → (dropStars l).2.length < l.length := by
  induction l with
  | nil => simp [dropStars]
  | cons c rest ih =>
    rw [dropStars]
    split
    · intro _
      have := dropStars_le rest
      simp only [List.length_cons]
      omega
    · simp

theorem dropStars_head (l : List Char) {c : Char} {rest : List Char}
    (h : (dropStars l).2 = c :: rest) : ¬c = '*' := by
  induction l with
  | nil => simp [dropStars] at h
  | cons a tl ih =>
    rw [dropStars] at h
    split at h
    · exact ih h
    · next hne =>
      simp only at h
      obtain ⟨h1, -⟩ := List.cons.injEq .. ▸ h
      simp only [List.cons.injEq] at h
      rw [← h.1]
      exact hne

/-- Chunk scan of the Go matcher's scanChunk after the stars: collect
characters until an unbracketed star, tracking bracket state and
skipping escaped characters. -/
def scanBody : List Char → Bool → List Char × List Char
  | [], _ => ([], [])
  | c :: rest, inrange =>
    if c = '\\' then
      match rest with
      | [] => ([c], [])
      | d :: rest2 =>
        let p := scanBody rest2 inrange
        (c :: d :: p.1, p.2)
    else if c = '[' then
      let p := scanBody rest true
      (c :: p.1, p.2)
    else if c = ']' then
      let p := scanBody rest false
      (c :: p.1, p.2)
    else if c = '*' then
      if inrange then
        let p := scanBody rest inrange
        (c :: p.1, p.2)
      else ([], c :: rest)
    else
      let p := scanBody rest inrange
      (c :: p.1, p.2)

theorem scanBody_len (l : List Char) (inrange : Bool) :
    (scanBody l inrange).1.length + (scanBody l inrange).2.length = l.length := by
  induction l, inrange using scanBody.induct <;>
    rw [scanBody.eq_def] <;> (try simp_all) <;> omega

theorem scanBody_chunk_ne (c : Char) (rest : List Char) (h : ¬c = '*') :
    ¬(scanBody (c :: rest) false).1 = [] := by
  rw [scanBody.eq_def]
  split
  · next _ _ heq => simp at heq
  · next _ _ c2 rest2 heq =>
    injection heq with h1 h2
    subst h1
    subst h2
    repeat' split
    all_goals simp_all

/-- scanChunk of the Go matcher: strip leading stars, then scan the
chunk up to the next unbracketed star. -/
def scanChunk (p : List Char) : Bool × List Char × List Char :=
  ((dropStars p).1, (scanBody (dropStars p).2 false).1, (scanBody (dropStars p).2 false).2)

theorem scanChunk_rest_lt (p : List Char) (hp : ¬p = []) :
    (scanChunk p).2.2.length < p.length := by
  have hgoal : (scanChunk p).2.2 = (scanBody (dropStars p).2 false).2 := rfl
  rw [hgoal]
  have hlen := scanBody_len (dropStars p).2 false
  by_cases hstar : (dropStars p).1 = true
  · have := dropStars_true_lt p hstar
    omega
  · have heq : (dropStars p).2 = p := by
      cases hd : p with
      | nil => exact absurd hd hp
      | cons c rest =>
        rw [dropStars]
        split
        · next hc =>
          exfalso
          apply hstar
          rw [hd, dropStars, if_pos hc]
        · rfl
    cases hd : p with
    | nil => exact absurd hd hp
    | cons c rest =>
      rw [hd] at heq hlen
      rw [heq] at hlen
      have hcne : ¬c = '*' := by
        apply dropStars_head (c :: rest)
        rw [heq]
      have hne0 := scanBody_chunk_ne c rest hcne
      have hne : 0 < (scanBody (c :: rest) false).1.length := by
        cases hsb : (scanBody (c :: rest) false).1 with
        | nil => exact absurd hsb hne0
        | cons x xs => simp
      rw [heq]
      simp only [List.length_cons] at hlen ⊢
      omega

/-- The trailing syntax check of the Go matcher: before Match returns a
plain no-match, the remainder of the pattern is scanned chunk by chunk
against the empty candidate so that a malformed pattern is still
reported. -/
def syntaxChk (p : List Char) : Bool :=
  if hp : p = [] then false
  else
    match matchChunk (scanChunk p).2.1 [] false with
    | .err => true
    | _ => syntaxChk (scanChunk p).2.2
termination_by p.length
decreasing_by exact scanChunk_rest_lt p hp

/-- Shared tail of the Go Match loop: report a failed match, surfacing a
syntax error in the unconsumed pattern when there is one. -/
def finishCheck (rest : List Char) : Bool × Bool :=
  if syntaxChk rest then (false, true) else (false, false)

theorem finishCheck_fst (rest : List Char) : (finishCheck rest).1 = false := by
  rw [finishCheck]
  split <;> rfl

/-- The result of matchChunk packaged with the fact that the candidate
never grows; used so that the recursion of the Match star loop is
visibly well founded. -/
inductive ChunkResB (bound : Nat) where
  | err : ChunkResB bound
  | nomatch : ChunkResB bound
  | ok : (t : List Char) → t.length ≤ bound → ChunkResB bound

def matchChunkB (chunk s : List Char) (failed0 : Bool) : ChunkResB s.length :=
  match h : matchChunk chunk s failed0 with
  | .err => .err
  | .nomatch => .nomatch
  | .ok t => .ok t (matchChunk_ok_le h)

/-!
The Go Match loop (goMatchAux) together with its inner star loop
(starLoop).  goMatchAux consumes the pattern chunk by chunk; a chunk
preceded by a star may retry at each later position of the candidate up
to the next path separator.  The pair returned is (matched, bad
pattern).
-/
mutual

def goMatchAux (pattern name : List Char) : Bool × Bool :=
  if hp : pattern = [] then (name.isEmpty, false)
  else
    if (scanChunk pattern).1 && (scanChunk pattern).2.1.isEmpty then
      (!(name.contains '/'), false)
    else
      match matchChunk (scanChunk pattern).2.1 name false with
      | .ok t =>
        if t.isEmpty || !(scanChunk pattern).2.2.isEmpty then
          goMatchAux (scanChunk pattern).2.2 t
        else if (scanChunk pattern).1 then
          starLoop (scanChunk pattern).2.1 (scanChunk pattern).2.2 name
        else finishCheck (scanChunk pattern).2.2
      | .err => (false, true)
      | .nomatch =>
        if (scanChunk pattern).1 then
          starLoop (scanChunk pattern).2.1 (scanChunk pattern).2.2 name
        else finishCheck (scanChunk pattern).2.2
termination_by (pattern.length, name.length)
decreasing_by
  · exact Prod.Lex.left _ _ (scanChunk_rest_lt pattern hp)
  · exact Prod.Lex.left _ _ (scanChunk_rest_lt pattern hp)
  · exact Prod.Lex.left _ _ (scanChunk_rest_lt pattern hp)

def starLoop (chunk rest name : List Char) : Bool × Bool :=
  match name with
  | [] => finishCheck rest
  | c :: cs =>
    if c = '/' then finishCheck rest
    else
      match matchChunkB chunk cs false with
      | .ok t hle =>
        if rest.isEmpty && !t.isEmpty then starLoop chunk rest cs
        else goMatchAux rest t
      | .err => (false, true)
      | .nomatch => starLoop chunk rest cs
termination_by (rest.length, name.length)
decreasing_by
  · exact Prod.Lex.right _ (Nat.lt_succ_of_le hle)
  · exact Prod.Lex.right _ (Nat.lt_succ_self _)

end

/-- filepath Match of the Go standard library, on strings: returns the
matched flag together with a flag recording whether ErrBadPattern was
reported.  The Go code returns (bool, error); the error component here
is its being non-nil. -/
def filepathMatch (pattern name : String) : Bool × Bool :=
  goMatchAux pattern.data name.data

/-! ### Filter: exclusion catalog and path classification -/

/-- ExclusionCategory of the filter package: a named category of
exclusion patterns. -/
structure ExclusionCategory where
  ID : String
  Name : String
  Description : String
  Patterns : List String
deriving DecidableEq

/-- exclusionCategories of the filter package: the static catalog of
default exclusion categories, in source order. -/
def exclusionCategories : List ExclusionCategory := [
  { ID := "vcs", Name := "Version Control",
    Description := "Version control systems and metadata",
    Patterns := [".git", ".svn", ".hg", ".bzr"] },
  { ID := "deps", Name := "Dependencies",
    Description := "Package managers and dependency directories",
    Patterns := ["node_modules", "vendor", "bower_components", ".pnpm-store"] },
  { ID := "build", Name := "Build Artifacts",
    Description := "Compiled code and build outputs",
    Patterns := ["target", "build", "dist", "out", "bin", "obj", "*.o", "*.so", "*.dll", "*.exe"] },
  { ID := "go", Name := "Go Specific",
    Description := "Go language specific files",
    Patterns := ["go.sum", "*.test", "coverage.out", "*.prof"] },
  { ID := "js", Name := "JavaScript/Node.js",
    Description := "JavaScript and Node.js specific files",
    Patterns := ["*.min.js", "*.min.css", ".nyc_output", "coverage"] },
  { ID := "python", Name := "Python",
    Description := "Python specific files and directories",
    Patterns := ["__pycache__", "*.pyc", "*.pyo", "*.pyd", ".pytest_cache", ".coverage", ".tox", "*.egg-info", ".venv", "venv"] },
  { ID := "python-ds", Name := "Python Data Science",
    Description := "Python data science and machine learning files",
    Patterns := [".ipynb_checkpoints", "*.pkl", "*.pickle", "*.h5", "*.hdf5", "*.joblib", ".mlruns", "mlruns", "wandb", ".neptune", "lightning_logs", "*.model", "*.weights"] },
  { ID := "java", Name := "Java",
    Description := "Java specific files and directories",
    Patterns := ["*.class", "*.jar", "*.war", "*.ear", ".gradle", "gradle-wrapper.jar"] },
  { ID := "c", Name := "C/C++",
    Description := "C and C++ specific files",
    Patterns := ["*.o", "*.a", "*.lib", "*.obj", "*.pdb", "*.ilk", "*.exp"] },
  { ID := "rust", Name := "Rust",
    Description := "Rust specific files and directories",
    Patterns := ["Cargo.lock", "target"] },
  { ID := "logs", Name := "Logs & Temporary",
    Description := "Log files and temporary data",
    Patterns := ["*.log", "*.tmp", "*.temp", "*.cache", "*.swp", "*.swo", "*~"] },
  { ID := "env", Name := "Environment & Config",
    Description := "Environment variables and sensitive configuration",
    Patterns := [".env*", "*.pem", "*.key", "*.crt", "*.p12", "secrets.json"] },
  { ID := "ide", Name := "IDE & Editors",
    Description := "IDE and editor specific files",
    Patterns := [".vscode", ".idea", "*.sublime-*", ".vim", ".emacs.d", ".DS_Store", "Thumbs.db"] },
  { ID := "docs", Name := "Documentation",
    Description := "Generated documentation",
    Patterns := ["docs/_build", "site", "_site", ".jekyll-cache"] },
  { ID := "typescript", Name := "TypeScript",
    Description := "TypeScript specific files and directories",
    Patterns := ["*.tsbuildinfo", "*.d.ts.map", "tsconfig.tsbuildinfo", ".tscache", "*.js.map", "*.jsx.map", "*.ts.map", "*.tsx.map"] },
  { ID := "php", Name := "PHP",
    Description := "PHP specific files and directories",
    Patterns := ["composer.lock", ".phpunit.result.cache", "*.phar", ".php_cs.cache", ".php-cs-fixer.cache", "phpunit.xml", "phpstan.neon", "psalm.xml"] },
  { ID := "latex", Name := "LaTeX",
    Description := "LaTeX document preparation system files",
    Patterns := ["*.aux", "*.bbl", "*.blg", "*.fdb_latexmk", "*.fls", "*.log", "*.out", "*.synctex.gz", "*.toc", "*.lof", "*.lot", "*.idx", "*.ind", "*.ilg", "*.nav", "*.snm", "*.vrb"] },
  { ID := "ruby", Name := "Ruby",
    Description := "Ruby specific files and directories",
    Patterns := ["Gemfile.lock", ".bundle", ".rspec", "coverage", "spec/reports", ".yardoc", "doc/", "*.gem"] },
  { ID := "swift", Name := "Swift",
    Description := "Swift and iOS development files",
    Patterns := ["*.xcworkspace", "*.xcuserdata", "*.xcscheme", "DerivedData", "build", "*.ipa", "*.dSYM", "Pods", "Podfile.lock", "*.swiftpm"] },
  { ID := "kotlin", Name := "Kotlin",
    Description := "Kotlin specific files",
    Patterns := ["*.kt~", "*.kts~", ".kotlin"] }
]

/-- GetFilteredPatterns of the filter package: all patterns except those
of disabled categories, flattened in catalog order (the loop body over a
category list). -/
def getFilteredPatternsAux (disabledCategoryIDs : List String) :
    List ExclusionCategory → List String
  | [] => []
  | category :: rest =>
    if disabledCategoryIDs.contains category.ID then
      getFilteredPatternsAux disabledCategoryIDs rest
    else category.Patterns ++ getFilteredPatternsAux disabledCategoryIDs rest

def GetFilteredPatterns (disabledCategoryIDs : List String) : List String :=
  getFilteredPatternsAux disabledCategoryIDs exclusionCategories

/-- GetAllPatterns of the filter package. -/
def GetAllPatterns : List String := GetFilteredPatterns []

/-- GetCategoryForPattern of the filter package: name of the first
catalog category whose pattern list contains the pattern, with the
sentinel "Custom" when none does (the loop body over a category
list). -/
def getCategoryForPatternAux (pattern : String) :
    List ExclusionCategory → String
  | [] => "Custom"
  | category :: rest =>
    if category.Patterns.contains pattern then category.Name
    else getCategoryForPatternAux pattern rest

def GetCategoryForPattern (pattern : String) : String :=
  getCategoryForPatternAux pattern exclusionCategories

/-- ExclusionReason of the filter package: the matched pattern together
with the name of its owning category. -/
structure ExclusionReason where
  Pattern : String
  Category : String
deriving DecidableEq

/-- filepath Base of the Go standard library (Unix): empty path gives
".", trailing slashes are stripped, the part after the last slash
remains, and an all-slash path gives "/". -/
def basePath (path : String) : String :=
  if path = "" then "."
  else
    let stripped := (path.data.reverse.dropWhile (fun c => c = '/')).reverse
    let last := (stripped.reverse.takeWhile (fun c => ¬c = '/')).reverse
    if last.isEmpty then "/" else String.mk last

def isAbsPath (p : String) : Bool := p.data.head? = some '/'

/-- Component processing of the Go standard library's path cleaning:
empty and dot components vanish, a dot-dot cancels the previous
component when possible (and vanishes at an absolute root). -/
def cleanComps (abs : Bool) : List String → List String → List String
  | acc, [] => acc
  | acc, comp :: rest =>
    if comp = "" ∨ comp = "." then cleanComps abs acc rest
    else if comp = ".." then
      match acc.getLast? with
      | none => if abs then cleanComps abs acc rest else cleanComps abs [".."] rest
      | some l =>
        if l = ".." then cleanComps abs (acc ++ [".."]) rest
        else cleanComps abs acc.dropLast rest
    else cleanComps abs (acc ++ [comp]) rest

def cleanPath (p : String) : String :=
  if isAbsPath p then "/" ++ String.intercalate "/" (cleanComps true [] (p.splitOn "/"))
  else
    let comps := cleanComps false [] (p.splitOn "/")
    if comps = [] then "." else String.intercalate "/" comps

def dropCommonPre : List String → List String → List String × List String
  | b :: bs, t :: ts =>
    if b = t then dropCommonPre bs ts else (b :: bs, t :: ts)
  | bs, ts => (bs, ts)

/-- filepath Rel of the Go standard library, modelled on cleaned Unix
paths: equal paths give ".", mixing an absolute with a relative path
fails (this is the failure the filter's fallback is about), a leading
dot-dot among the remaining base components fails, and otherwise the
remaining base components turn into dot-dots followed by the remaining
target components. -/
def filepathRel (basep targp : String) : Option String :=
  let base := cleanPath basep
  let targ := cleanPath targp
  if targ = base then some "."
  else if ¬(isAbsPath base = isAbsPath targ) then none
  else
    let bcomps := if base = "." then [] else (base.splitOn "/").filter (fun c => ¬c = "")
    let tcomps := if targ = "." then [] else (targ.splitOn "/").filter (fun c => ¬c = "")
    let rem := dropCommonPre bcomps tcomps
    if rem.1.head? = some ".." then none
    else some (String.intercalate "/" (List.replicate rem.1.length ".." ++ rem.2))

/-- The pattern loop of the filter's GetExclusionReason, taking the two
derived probes (base name and relative path) as inputs: in pattern
order, try the base name, then the relative path, then — for directories
only — every separator-split component of the relative path; the first
pattern with a successful probe wins, paired with its catalog category.
The matching error of a probe is discarded, exactly as the Go code
drops it. -/
def getExclusionReasonCore (patterns : List String)
    (name relPath : String) (isDir : Bool) : Option ExclusionReason :=
  match patterns with
  | [] => none
  | pattern :: rest =>
    if (filepathMatch pattern name).1 then
      some { Pattern := pattern, Category := GetCategoryForPattern pattern }
    else if (filepathMatch pattern relPath).1 then
      some { Pattern := pattern, Category := GetCategoryForPattern pattern }
    else if isDir && ((relPath.splitOn "/").any fun comp => (filepathMatch pattern comp).1) then
      some { Pattern := pattern, Category := GetCategoryForPattern pattern }
    else getExclusionReasonCore rest name relPath isDir

/-- GetExclusionReason of the filter package: compute the relative path
(falling back to the path itself when Rel fails) and the base name, then
run the pattern loop.  The operation is total: it never fails. -/
def GetExclusionReason (patterns : List String) (path baseDir : String)
    (isDir : Bool) : Option ExclusionReason :=
  getExclusionReasonCore patterns (basePath path)
    (match filepathRel baseDir path with
     | some r => r
     | none => path) isDir

/-- ShouldExclude of the filter package: boolean wrapper over
GetExclusionReason. -/
def ShouldExclude (patterns : List String) (path baseDir : String)
    (isDir : Bool) : Bool :=
  (GetExclusionReason patterns path baseDir isDir).isSome

/-! ### Scanner: file-system model, content sniffing and output -/

/-- A file-system tree.  A file carries its name, its content as bytes,
and whether opening/reading it succeeds (false models an I/O failure on
that file).  A directory carries its name and entries. -/
inductive FSEntry where
  | file : String → List Nat → Bool → FSEntry
  | dir : String → List FSEntry → FSEntry

def entryName : FSEntry → String
  | .file n _ _ => n
  | .dir n _ => n

def entryIsDir : FSEntry → Bool
  | .file .. => false
  | .dir .. => true

/-- Well-formed tree: every name is non-empty and free of path
separators, and sibling names are distinct — exactly what a real file
system guarantees. -/
def goodName (n : String) : Bool := !n.isEmpty && !(n.data.contains '/')

mutual
def wfEntry : FSEntry → Bool
  | .file n _ _ => goodName n
  | .dir n entries => goodName n && wfEntries entries
def wfEntries : List FSEntry → Bool
  | [] => true
  | e :: rest =>
    wfEntry e && !((rest.map entryName).contains (entryName e)) && wfEntries rest
end

def strBytes (s : String) : List Nat := s.data.map Char.toNat

/-- The whitespace bytes skipped before signature matching in the Go
standard library's content-type sniffer. -/
def isWSByte (b : Nat) : Bool :=
  b = 0x09 || b = 0x0A || b = 0x0C || b = 0x0D || b = 0x20

/-- The binary data bytes of the Go sniffer's plain-text heuristic. -/
def isBinaryDataByte (b : Nat) : Bool :=
  b ≤ 0x08 || b = 0x0B || (0x0E ≤ b && b ≤ 0x1A) || (0x1C ≤ b && b ≤ 0x1F)

/-- HTML tag signature match of the Go sniffer: case-insensitive on
letters, and the tag must be followed by a space or a closing angle
bracket. -/
def htmlSigMatch : List Nat → List Nat → Bool
  | [], d :: _ => d = 0x20 || d = 0x3E
  | [], [] => false
  | _ :: _, [] => false
  | b :: sr, d :: dr =>
    (if 0x41 ≤ b ∧ b ≤ 0x5A then b = d.land 0xDF else b = d) && htmlSigMatch sr dr

def htmlSigs : List (List Nat) :=
  [strBytes "<!DOCTYPE HTML", strBytes "<HTML", strBytes "<HEAD",
   strBytes "<SCRIPT", strBytes "<IFRAME", strBytes "<H1", strBytes "<DIV",
   strBytes "<FONT", strBytes "<TABLE", strBytes "<A", strBytes "<STYLE",
   strBytes "<TITLE", strBytes "<B", strBytes "<BODY", strBytes "<BR",
   strBytes "<P", strBytes "<!--"]

/-- Byte-prefix signatures of the Go sniffer whose detected type is not
textual (a representative subset: documents, images, archives,
executables; the remaining entries of the Go table also detect
non-textual types and virtually always contain binary data bytes, so the
plain-text fallback below decides them identically). -/
def nonTextSigs : List (List Nat) :=
  [strBytes "%PDF-", strBytes "%!PS-Adobe-",
   strBytes "GIF87a", strBytes "GIF89a",
   [0x89, 0x50, 0x4E, 0x47, 0x0D, 0x0A, 0x1A, 0x0A],
   [0xFF, 0xD8, 0xFF],
   [0x50, 0x4B, 0x03, 0x04],
   [0x1F, 0x8B, 0x08],
   strBytes "MZ", strBytes "BM"]

/-- Byte-order-mark signatures of the Go sniffer; all detect a textual
type. -/
def bomSigs : List (List Nat) :=
  [[0xFE, 0xFF], [0xFF, 0xFE], [0xEF, 0xBB, 0xBF]]

/-- Modelled from the Go standard library: whether the content type that
net/http DetectContentType reports for this byte prefix starts with
"text/" — the only aspect of the detected type the scanner uses.  The
signature order follows the Go table: HTML tags and xml (textual),
document/image/archive signatures (binary), byte-order marks (textual),
then the plain-text fallback of scanning for binary data bytes after
leading whitespace; anything else is binary.  An empty prefix has no
binary data bytes, so it is textual (Go reports text/plain for it). -/
def isTextContent (data : List Nat) : Bool :=
  let fnw := data.dropWhile isWSByte
  if htmlSigs.any (fun sig => htmlSigMatch sig fnw) then true
  else if (strBytes "<?xml").isPrefixOf fnw then true
  else if nonTextSigs.any (fun sig => sig.isPrefixOf data) then false
  else if bomSigs.any (fun sig => sig.isPrefixOf data) then true
  else fnw.all (fun b => !isBinaryDataByte b)

/-- Strip one trailing carriage return, as bufio ScanLines does. -/
def dropCR (l : List Nat) : List Nat :=
  if l.getLast? = some 13 then l.dropLast else l

/-- Line splitting of bufio Scanner with ScanLines: tokens are separated
by newlines, a trailing carriage return is stripped from each, the final
token is produced only when non-empty data remains at the end. -/
def splitLinesAux : List Nat → List Nat → List (List Nat)
  | [], cur => if cur.isEmpty then [] else [dropCR cur]
  | b :: rest, cur =>
    if b = 10 then dropCR cur :: splitLinesAux rest []
    else splitLinesAux rest (cur ++ [b])

def splitLines (content : List Nat) : List (List Nat) :=
  splitLinesAux content []

def bytesToString (bs : List Nat) : String := String.mk (bs.map Char.ofNat)

/-- The separator literal of the scanner package: twenty dashes. -/
def separator : String := "--------------------"

/-- Errors the scanner distinguishes: the root directory does not exist,
or an I/O failure on a path during the walk. -/
inductive ScanErr where
  | rootNotExist : ScanErr
  | ioError : String → ScanErr
deriving DecidableEq

/-- processFile of the scanner: open the file (failure is an error), read
the first 512 bytes, detect the content type; non-text files are skipped
silently; for a text file write separator, the file: line with the
relative path, separator, then every line of the content indented by
four spaces.  Output is the list of written lines. -/
def processFile (relPath : String) (content : List Nat) (readable : Bool) :
    List String × Option ScanErr :=
  if !readable then ([], some (.ioError relPath))
  else if !(isTextContent (content.take 512)) then ([], none)
  else
    ([separator, "file: " ++ relPath, separator] ++
      (splitLines content).map (fun line => "    " ++ bytesToString line), none)

/-- The relative path the scanner displays and filters with, from the
relative component list ("." stands for the root itself, as filepath Rel
reports). -/
def relPathOf (rel : List String) : String :=
  if rel.isEmpty then "." else String.intercalate "/" rel

/-!
The walk of Scan (render mode), following filepath Walk with the walk
callback of the scanner inlined: an excluded directory is pruned
(SkipDir), an excluded file is skipped, directories are descended,
files go to processFile, and the first error terminates the walk.  The
result is (written lines, visited relative paths, error); the visited
trace records one entry per callback invocation.  The name and relative
path handed to the filter are derived from the component list; on a
well-formed tree they coincide with what filepath Base and Rel compute
in Go.  Children are visited in stored order (Go sorts directory
entries by name; every property proved below is order-independent).
-/
mutual

def walkEntry (pats : List String) (rel : List String) (e : FSEntry) :
    List String × List (List String) × Option ScanErr :=
  if (getExclusionReasonCore pats (entryName e)
      (relPathOf (rel ++ [entryName e])) (entryIsDir e)).isSome then
    ([], [rel ++ [entryName e]], none)
  else
    match e with
    | .file n content readable =>
      let pr := processFile (relPathOf (rel ++ [n])) content readable
      (pr.1, [rel ++ [n]], pr.2)
    | .dir n entries =>
      let w := walkEntries pats (rel ++ [n]) entries
      (w.1, (rel ++ [n]) :: w.2.1, w.2.2)

def walkEntries (pats : List String) (rel : List String) :
    List FSEntry → List String × List (List String) × Option ScanErr
  | [] => ([], [], none)
  | e :: rest =>
    let w1 := walkEntry pats rel e
    match w1.2.2 with
    | some er => (w1.1, w1.2.1, some er)
    | none =>
      let w2 := walkEntries pats rel rest
      (w1.1 ++ w2.1, w1.2.1 ++ w2.2.1, w2.2.2)

end

/-- The root visit of the walk: the callback runs on the root itself
with relative path "." and the base name of the scan directory; SkipDir
on the excluded root ends the walk without error. -/
def scanRoot (pats : List String) (absBaseName : String) (e : FSEntry) :
    List String × List (List String) × Option ScanErr :=
  if (getExclusionReasonCore pats absBaseName "." (entryIsDir e)).isSome then
    ([], [[]], none)
  else
    match e with
    | .file _ content readable =>
      let pr := processFile "." content readable
      (pr.1, [[]], pr.2)
    | .dir _ entries =>
      let w := walkEntries pats [] entries
      (w.1, [] :: w.2.1, w.2.2)

/-- Scan of the scanner package: a missing root is the distinct
root-not-found error with nothing written; otherwise walk, then write
the final separator line unconditionally — also when the walk returned
an error — and return the walk's error. -/
def Scan (pats : List String) (absBaseName : String) (root : Option FSEntry) :
    List String × List (List String) × Option ScanErr :=
  match root with
  | none => ([], [], some .rootNotExist)
  | some e =>
    let w := scanRoot pats absBaseName e
    (w.1 ++ [separator], w.2.1, w.2.2)

/-- FileInfo of the scanner's dry-run mode.  RelComps is the relative
component list standing for the absolute Path field of the Go record;
RelPath is the displayed relative path derived from it. -/
structure FileInfo where
  RelComps : List String
  RelPath : String
  IsDir : Bool
  IsText : Bool
  Excluded : Bool
  Reason : Option ExclusionReason
deriving DecidableEq

/-- isTextFile of the scanner: false when opening or reading the 512-byte
prefix fails, otherwise the content-type sniff on the prefix. -/
def isTextFile (readable : Bool) (content : List Nat) : Bool :=
  readable && isTextContent (content.take 512)

/-!
The walk of DryRun: the same traversal as render mode, but every visited
entry is appended to exactly one of the two lists — excluded entries
(with their reason, pruning directories) or included entries (files get
the lazily computed is-text flag; per-file read failures are absorbed by
isTextFile and never terminate the walk).  The result is (included,
excluded, visited relative paths).
-/
mutual

def dryEntry (pats : List String) (rel : List String) (e : FSEntry) :
    List FileInfo × List FileInfo × List (List String) :=
  match getExclusionReasonCore pats (entryName e)
      (relPathOf (rel ++ [entryName e])) (entryIsDir e) with
  | some reason =>
    ([], [{ RelComps := rel ++ [entryName e],
            RelPath := relPathOf (rel ++ [entryName e]),
            IsDir := entryIsDir e, IsText := false,
            Excluded := true, Reason := some reason }],
     [rel ++ [entryName e]])
  | none =>
    match e with
    | .file n content readable =>
      ([{ RelComps := rel ++ [n], RelPath := relPathOf (rel ++ [n]),
          IsDir := false, IsText := isTextFile readable content,
          Excluded := false, Reason := none }], [], [rel ++ [n]])
    | .dir n entries =>
      let w := dryEntries pats (rel ++ [n]) entries
      ({ RelComps := rel ++ [n], RelPath := relPathOf (rel ++ [n]),
         IsDir := true, IsText := false,
         Excluded := false, Reason := none } :: w.1, w.2.1,
       (rel ++ [n]) :: w.2.2)

def dryEntries (pats : List String) (rel : List String) :
    List FSEntry → List FileInfo × List FileInfo × List (List String)
  | [] => ([], [], [])
  | e :: rest =>
    let w1 := dryEntry pats rel e
    let w2 := dryEntries pats rel rest
    (w1.1 ++ w2.1, w1.2.1 ++ w2.2.1, w1.2.2 ++ w2.2.2)

end

/-- DryRun of the scanner package: a missing root is the distinct
root-not-found error; otherwise the dry walk runs and — since isTextFile
absorbs per-file read failures — always finishes without error. -/
def DryRun (pats : List String) (absBaseName : String) (root : Option FSEntry) :
    (List FileInfo × List FileInfo × List (List String)) × Option ScanErr :=
  match root with
  | none => (([], [], []), some .rootNotExist)
  | some e =>
    match getExclusionReasonCore pats absBaseName "." (entryIsDir e) with
    | some reason =>
      (([], [{ RelComps := [], RelPath := ".", IsDir := entryIsDir e,
               IsText := false, Excluded := true, Reason := some reason }],
        [[]]), none)
    | none =>
      match e with
      | .file _ content readable =>
        (([{ RelComps := [], RelPath := ".", IsDir := false,
             IsText := isTextFile readable content,
             Excluded := false, Reason := none }], [], [[]]), none)
      | .dir _ entries =>
        let w := dryEntries pats [] entries
        (({ RelComps := [], RelPath := ".", IsDir := true, IsText := false,
            Excluded := false, Reason := none } :: w.1, w.2.1,
          [] :: w.2.2), none)

/-- The probe of one pattern in the classification loop: base name,
then relative path, then — for directories — the separator-split
components of the relative path. -/
def patternProbe (name relPath : String) (isDir : Bool) (pattern : String) : Bool :=
  (filepathMatch pattern name).1 || (filepathMatch pattern relPath).1 ||
    (isDir && ((relPath.splitOn "/").any fun comp => (filepathMatch pattern comp).1))

/-- A line of the emitted output that is a file header. -/
def isHeaderLine (l : String) : Bool := "file: ".data.isPrefixOf l.data

/-- A pattern containing a glob metacharacter; a pattern without one is a
literal, matching exactly itself. -/
def hasMeta (p : String) : Bool :=
  p.data.any fun c => c = '*' ∨ c = '?' ∨ c = '[' ∨ c = '\\'

/-! ### Theorems -/

theorem getExclusionReasonCore_eq_find (name relPath : String) (isDir : Bool) :
    ∀ pats : List String,
      getExclusionReasonCore pats name relPath isDir =
        (pats.find? (patternProbe name relPath isDir)).map
          (fun pattern => { Pattern := pattern,
                            Category := GetCategoryForPattern pattern }) := by
  intro pats
  induction pats with
  | nil => rfl
  | cons p rest ih =>
    rw [getExclusionReasonCore, List.find?]
    by_cases hpr : patternProbe name relPath isDir p = true
    · rw [hpr]
      simp only [Option.map_some]
      rw [patternProbe] at hpr
      by_cases h1 : (filepathMatch p name).1 = true
      · rw [if_pos h1]; rfl
      · rw [if_neg h1]
        by_cases h2 : (filepathMatch p relPath).1 = true
        · rw [if_pos h2]; rfl
        · rw [if_neg h2]
          simp only [h1, h2, Bool.false_or] at hpr
          rw [if_pos hpr]; rfl
    · simp only [Bool.not_eq_true] at hpr
      rw [hpr]
      simp only [Option.map]
      rw [patternProbe] at hpr
      simp only [Bool.or_eq_false_iff] at hpr
      rw [if_neg (by simp [hpr.1.1]), if_neg (by simp [hpr.1.2]), if_neg (by simp [hpr.2])]
      exact ih

/-- C2: GetExclusionReason evaluates the filter's patterns in
construction order with first match winning; a pattern is tried against
the base name, the full relative path, and — only for directories — each
individual component of the relative path; the first matching pattern is
returned with its category, and none when no pattern matches.  When the
relative-path computation fails, the path itself is used unmodified as
the relative path, and the operation always produces a value (it never
fails). -/
theorem C2_classification_first_match (pats : List String)
    (path baseDir : String) (isDir : Bool) :
    GetExclusionReason pats path baseDir isDir =
      (pats.find? (patternProbe (basePath path)
          ((filepathRel baseDir path).getD path) isDir)).map
        (fun pattern => { Pattern := pattern,
                          Category := GetCategoryForPattern pattern }) := by
  rw [GetExclusionReason]
  have hm : (match filepathRel baseDir path with
             | some r => r
             | none => path) = (filepathRel baseDir path).getD path := by
    cases filepathRel baseDir path <;> rfl
  rw [hm]
  exact getExclusionReasonCore_eq_find (basePath path)
    ((filepathRel baseDir path).getD path) isDir pats

theorem getFilteredPatternsAux_eq (ds : List String) :
    ∀ cats : List ExclusionCategory,
      getFilteredPatternsAux ds cats =
        ((cats.filter fun c => !(ds.contains c.ID)).map
          ExclusionCategory.Patterns).flatten := by
  intro cats
  induction cats with
  | nil => rfl
  | cons c rest ih =>
    rw [getFilteredPatternsAux]
    by_cases h : ds.contains c.ID = true
    · rw [if_pos h]
      have h2 : c.ID ∈ ds := by simpa using h
      simp [List.filter_cons, h2, ih]
    · rw [if_neg h]
      simp only [Bool.not_eq_true] at h
      have h2 : c.ID ∉ ds := by simpa using h
      simp [List.filter_cons, h2, ih]

/-- C4: GetFilteredPatterns returns the concatenation, in catalog order,
of the pattern lists of exactly the categories whose ID is not disabled,
duplicates across categories preserved; hence a pattern belongs to the
result exactly when some non-disabled category contributes it, so
disabling one category removes only patterns contributed solely by it
(go.sum, *.test vanish when "go" is disabled) while a pattern shared
with a still-enabled category remains (*.log survives disabling "logs"
through the LaTeX category). -/
theorem C4_filtered_patterns (ds : List String) :
    GetFilteredPatterns ds =
      ((exclusionCategories.filter fun c => !(ds.contains c.ID)).map
        ExclusionCategory.Patterns).flatten ∧
    (∀ p : String, p ∈ GetFilteredPatterns ds ↔
      ∃ c ∈ exclusionCategories, ¬(ds.contains c.ID = true) ∧ p ∈ c.Patterns) ∧
    ("go.sum" ∉ GetFilteredPatterns ["go"] ∧
     "*.test" ∉ GetFilteredPatterns ["go"] ∧
     "*.log" ∈ GetFilteredPatterns ["logs"]) := by
  refine ⟨getFilteredPatternsAux_eq ds exclusionCategories, ?_, by decide⟩
  intro p
  rw [GetFilteredPatterns, getFilteredPatternsAux_eq ds exclusionCategories]
  simp only [List.mem_flatten, List.mem_map, List.mem_filter]
  constructor
  · rintro ⟨l, ⟨c, ⟨hc, hnd⟩, hl⟩, hp⟩
    exact ⟨c, hc, by simpa using hnd, hl ▸ hp⟩
  · rintro ⟨c, hc, hnd, hp⟩
    exact ⟨c.Patterns, ⟨c, ⟨hc, by simpa using hnd⟩, rfl⟩, hp⟩

theorem getCategoryForPatternAux_eq (p : String) :
    ∀ cats : List ExclusionCategory,
      getCategoryForPatternAux p cats =
        ((cats.find? fun c => c.Patterns.contains p).map
          ExclusionCategory.Name).getD "Custom" := by
  intro cats
  induction cats with
  | nil => rfl
  | cons c rest ih =>
    rw [getCategoryForPatternAux, List.find?]
    by_cases h : c.Patterns.contains p = true
    · rw [if_pos h, h]; rfl
    · rw [if_neg h]
      simp only [Bool.not_eq_true] at h
      rw [h]
      exact ih

/-- C7: GetCategoryForPattern returns the name of the first catalog
category, in catalog order, whose pattern list contains an exact
string-equal copy of the pattern, and the sentinel "Custom" when no
category contains it — in particular for the empty string. -/
theorem C7_category_for_pattern (p : String) :
    GetCategoryForPattern p =
      ((exclusionCategories.find? fun c => c.Patterns.contains p).map
        ExclusionCategory.Name).getD "Custom" ∧
    GetCategoryForPattern "" = "Custom" :=
  ⟨getCategoryForPatternAux_eq p exclusionCategories, by decide⟩

/-- Mutual induction for the nested file-system tree: a property of
entries and a property of entry lists, established together. -/
theorem fsInd {P : FSEntry → Prop} {Q : List FSEntry → Prop}
    (hfile : ∀ n c r, P (.file n c r))
    (hdir : ∀ n es, Q es → P (.dir n es))
    (hnil : Q [])
    (hcons : ∀ e es, P e → Q es → Q (e :: es)) :
    (∀ e, P e) ∧ (∀ es, Q es) := by
  have h1 : ∀ e, P e := fun e => @FSEntry.rec P Q hfile hdir hnil hcons e
  refine ⟨h1, ?_⟩
  intro es
  induction es with
  | nil => exact hnil
  | cons e tl ih => exact hcons e tl (h1 e) ih

theorem processFile_err_io (relPath : String) (content : List Nat)
    (readable : Bool) {er : ScanErr}
    (h : (processFile relPath content readable).2 = some er) :
    er = .ioError relPath := by
  rw [processFile] at h
  split at h
  · simp only [Option.some.injEq] at h
    exact h.symm
  · split at h <;> simp at h

theorem walk_err_io :
    (∀ e : FSEntry, ∀ (pats rel : List String) (er : ScanErr),
      (walkEntry pats rel e).2.2 = some er → ∃ p, er = .ioError p) ∧
    (∀ es : List FSEntry, ∀ (pats rel : List String) (er : ScanErr),
      (walkEntries pats rel es).2.2 = some er → ∃ p, er = .ioError p) := by
  apply fsInd
  · intro n c r pats rel er h
    rw [walkEntry] at h
    split at h
    · simp at h
    · simp only at h
      exact ⟨_, processFile_err_io _ c r h⟩
  · intro n es ih pats rel er h
    rw [walkEntry] at h
    split at h
    · simp at h
    · simp only at h
      exact ih pats (rel ++ [n]) er h
  · intro pats rel er h
    rw [walkEntries] at h
    simp at h
  · intro e es ihe ihes pats rel er h
    rw [walkEntries] at h
    split at h
    · next er2 heq =>
      simp only [Option.some.injEq] at h
      exact h ▸ ihe pats rel er2 heq
    · simp only at h
      exact ihes pats rel er h

theorem scanRoot_err_io (pats : List String) (base : String) (e : FSEntry)
    {er : ScanErr} (h : (scanRoot pats base e).2.2 = some er) :
    ∃ p, er = .ioError p := by
  rw [scanRoot.eq_def] at h
  split at h
  · simp at h
  · split at h
    · exact ⟨_, processFile_err_io _ _ _ h⟩
    · exact walk_err_io.2 _ pats [] er h

/-- C5: the two error paths of Scan are distinguished.  A missing root
yields the distinct root-not-found error with nothing written to the
sink; that error is different from every mid-walk I/O error, and a scan
of an existing tree never reports it.  On a mid-walk I/O error nothing
already written is rolled back — the output is exactly the walk's
output followed by the unconditional trailing separator, which is the
last line written — and the walk's error is returned. -/
theorem C5_error_paths (pats : List String) (base : String) :
    Scan pats base none = ([], [], some .rootNotExist) ∧
    (∀ p : String, ScanErr.rootNotExist ≠ ScanErr.ioError p) ∧
    (∀ t : FSEntry, (Scan pats base (some t)).2.2 ≠ some .rootNotExist) ∧
    (∀ t : FSEntry,
      (Scan pats base (some t)).1 = (scanRoot pats base t).1 ++ [separator] ∧
      (Scan pats base (some t)).2.2 = (scanRoot pats base t).2.2 ∧
      (Scan pats base (some t)).1.getLast? = some separator) := by
  refine ⟨rfl, fun p h => by simp at h, ?_, ?_⟩
  · intro t h
    obtain ⟨p, hp⟩ := scanRoot_err_io pats base t h
    simp at hp
  · intro t
    refine ⟨rfl, rfl, ?_⟩
    rw [Scan]
    simp

/-- C9: an included file with empty content is classified as text (the
sniffer reports a textual type for an empty prefix) and render mode
emits its full block — separator, file: header, separator — followed by
zero content lines (the line scanner produces no lines from empty
content); an empty file is never silently skipped as binary. -/
theorem C9_empty_file_block (relPath : String) :
    processFile relPath [] true =
      ([separator, "file: " ++ relPath, separator], none) ∧
    isTextContent [] = true ∧
    splitLines [] = [] := by
  refine ⟨?_, by decide, rfl⟩
  rw [processFile]
  simp [isTextContent, htmlSigs, htmlSigMatch, strBytes, nonTextSigs, bomSigs,
    splitLines, splitLinesAux]

theorem dryRun_no_error (pats : List String) (base : String) (t : FSEntry) :
    (DryRun pats base (some t)).2 = none := by
  rw [DryRun.eq_def]
  split
  · next heq => simp at heq
  · next e heq =>
    split
    · rfl
    · split <;> rfl

/-- C10: in dry-run mode a file whose open or 512-byte read fails is
classified non-text by isTextFile, so an included unreadable file is
recorded in the included list with its is-text flag false (to be
reported as binary and skipped) — and per-file read failures never
become the dry run's terminal error: a dry run over an existing tree
always finishes without error, while render mode turns the same failure
into a walk error. -/
theorem C10_dry_run_absorbs_read_failures (pats : List String)
    (rel : List String) (name : String) (content : List Nat)
    (h : getExclusionReasonCore pats name (relPathOf (rel ++ [name])) false = none) :
    dryEntry pats rel (.file name content false) =
      ([{ RelComps := rel ++ [name], RelPath := relPathOf (rel ++ [name]),
          IsDir := false, IsText := false, Excluded := false,
          Reason := none }], [], [rel ++ [name]]) ∧
    isTextFile false content = false ∧
    (∀ (base : String) (t : FSEntry), (DryRun pats base (some t)).2 = none) ∧
    (processFile (relPathOf (rel ++ [name])) content false).2 =
      some (.ioError (relPathOf (rel ++ [name]))) := by
  refine ⟨?_, rfl, fun base t => dryRun_no_error pats base t, rfl⟩
  rw [dryEntry]
  simp only [entryName, entryIsDir] at h ⊢
  rw [h]
  rfl

theorem isHeaderLine_sep : isHeaderLine separator = false := by decide

theorem isHeaderLine_header (rp : String) :
    isHeaderLine ("file: " ++ rp) = true := by
  rw [isHeaderLine, String.data_append]
  exact List.isPrefixOf_iff_prefix.mpr (List.prefix_append _ _)

theorem isHeaderLine_content (s : String) :
    isHeaderLine ("    " ++ s) = false := by
  rw [isHeaderLine, String.data_append]
  simp [List.isPrefixOf]

theorem content_ne_sep (s : String) : ¬("    " ++ s) = separator := by
  intro h
  have := congrArg String.data h
  rw [String.data_append] at this
  simp [separator] at this

theorem header_ne_sep (rp : String) : ¬("file: " ++ rp) = separator := by
  intro h
  have := congrArg String.data h
  rw [String.data_append] at this
  simp [separator] at this

theorem processFile_block (relPath : String) (content : List Nat)
    (readable : Bool) :
    (processFile relPath content readable).1.count separator =
      2 * (processFile relPath content readable).1.countP isHeaderLine ∧
    ((processFile relPath content readable).1.countP isHeaderLine = 0 →
      (processFile relPath content readable).1 = []) := by
  rw [processFile]
  split
  · simp
  · split
    · simp
    · simp only [List.count_append, List.countP_append, List.count_cons,
        List.countP_cons, List.count_nil, List.countP_nil]
      have hc0 : ((splitLines content).map
          (fun line => "    " ++ bytesToString line)).count separator = 0 := by
        rw [List.count_eq_zero]
        intro hmem
        obtain ⟨line, -, hl⟩ := List.mem_map.mp hmem
        exact content_ne_sep _ hl
      have hh0 : ((splitLines content).map
          (fun line => "    " ++ bytesToString line)).countP isHeaderLine = 0 := by
        rw [List.countP_eq_zero]
        intro l hmem
        obtain ⟨line, -, hl⟩ := List.mem_map.mp hmem
        rw [← hl]
        simp [isHeaderLine_content]
      constructor
      · simp [hc0, hh0, isHeaderLine_sep, isHeaderLine_header,
          header_ne_sep, List.count_append, List.countP_append]
      · intro h0
        exfalso
        simp [hh0, isHeaderLine_sep, isHeaderLine_header, List.countP_append] at h0

theorem walk_block_inv :
    (∀ e : FSEntry, ∀ pats rel,
      (walkEntry pats rel e).1.count separator =
        2 * (walkEntry pats rel e).1.countP isHeaderLine ∧
      ((walkEntry pats rel e).1.countP isHeaderLine = 0 →
        (walkEntry pats rel e).1 = [])) ∧
    (∀ es : List FSEntry, ∀ pats rel,
      (walkEntries pats rel es).1.count separator =
        2 * (walkEntries pats rel es).1.countP isHeaderLine ∧
      ((walkEntries pats rel es).1.countP isHeaderLine = 0 →
        (walkEntries pats rel es).1 = [])) := by
  apply fsInd
  · intro n c r pats rel
    rw [walkEntry]
    split
    · simp
    · simp only
      exact processFile_block _ c r
  · intro n es ih pats rel
    rw [walkEntry]
    split
    · simp
    · simp only
      exact ih pats (rel ++ [n])
  · intro pats rel
    rw [walkEntries]
    simp
  · intro e es ihe ihes pats rel
    rw [walkEntries]
    split
    · simp only
      exact ihe pats rel
    · simp only [List.count_append, List.countP_append]
      obtain ⟨h1, h2⟩ := ihe pats rel
      obtain ⟨h3, h4⟩ := ihes pats rel
      constructor
      · omega
      · intro h0
        have hz1 : (walkEntry pats rel e).1.countP isHeaderLine = 0 := by omega
        have hz2 : (walkEntries pats rel es).1.countP isHeaderLine = 0 := by omega
        rw [h2 hz1, h4 hz2]
        rfl

theorem scanRoot_block_inv (pats : List String) (base : String) (e : FSEntry) :
    (scanRoot pats base e).1.count separator =
      2 * (scanRoot pats base e).1.countP isHeaderLine ∧
    ((scanRoot pats base e).1.countP isHeaderLine = 0 →
      (scanRoot pats base e).1 = []) := by
  rw [scanRoot.eq_def]
  split
  · simp
  · split
    · exact processFile_block _ _ _
    · exact walk_block_inv.2 _ pats []

/-- C1: in render mode, with N the number of emitted file blocks (each
emitted text file writes exactly one file: header line, so N is the
number of header lines of the output), the output contains exactly
2N + 1 lines equal to the twenty-dash separator literal — two per
emitted file plus the unconditional trailing separator; in particular
with N = 0 the output is exactly one separator line and nothing
else. -/
theorem C1_separator_count (pats : List String) (base : String)
    (root : FSEntry) :
    (Scan pats base (some root)).1.count separator =
      2 * (Scan pats base (some root)).1.countP isHeaderLine + 1 ∧
    ((Scan pats base (some root)).1.countP isHeaderLine = 0 →
      (Scan pats base (some root)).1 = [separator]) := by
  have hw := scanRoot_block_inv pats base root
  rw [Scan]
  simp only [List.count_append, List.countP_append, List.count_cons,
    List.countP_cons, List.count_nil, List.countP_nil, isHeaderLine_sep]
  constructor
  · simp [hw.1]
  · intro h0
    have hz : (scanRoot pats base root).1.countP isHeaderLine = 0 := by
      simpa using h0
    rw [hw.2 hz]
    rfl

theorem goMatch_not_true_true_aux (k : Nat) :
    (∀ p n : List Char, p.length + n.length ≤ k →
      ¬goMatchAux p n = (true, true)) ∧
    (∀ ch r nm : List Char, r.length + nm.length ≤ k →
      ¬starLoop ch r nm = (true, true)) := by
  induction k with
  | zero =>
    constructor
    · intro p n hlen h
      have hp : p = [] := by
        cases p with
        | nil => rfl
        | cons a tl => simp at hlen
      subst hp
      rw [goMatchAux] at h
      simp at h
    · intro ch r nm hlen h
      have hnm : nm = [] := by
        cases nm with
        | nil => rfl
        | cons a tl => simp [Nat.add_eq_zero] at hlen
      subst hnm
      rw [starLoop] at h
      rw [Prod.ext_iff] at h
      rw [finishCheck_fst] at h
      simp at h
  | succ k ih =>
    obtain ⟨ihg, ihs⟩ := ih
    constructor
    · intro p n hlen h
      rw [goMatchAux] at h
      split at h
      · simp at h
      · next hp =>
        have hplen : 0 < p.length := by
          cases p with
          | nil => exact absurd rfl hp
          | cons a tl => simp
        have hrest := scanChunk_rest_lt p hp
        split at h
        · simp at h
        · split at h
          · rename_i t hmc
            have hok := matchChunk_ok_le hmc
            split at h
            · exact ihg _ _ (by omega) h
            · split at h
              · exact ihs _ _ _ (by omega) h
              · rw [Prod.ext_iff, finishCheck_fst] at h
                simp at h
          · simp at h
          · split at h
            · exact ihs _ _ _ (by omega) h
            · rw [Prod.ext_iff, finishCheck_fst] at h
              simp at h
    · intro ch r nm hlen h
      rw [starLoop.eq_def] at h
      split at h
      · rw [Prod.ext_iff, finishCheck_fst] at h
        simp at h
      · next c cs =>
        split at h
        · rw [Prod.ext_iff, finishCheck_fst] at h
          simp at h
        · simp only [List.length_cons] at hlen
          split at h
          · next t hle =>
            split at h
            · exact ihs _ _ _ (by omega) h
            · exact ihg _ _ (by omega) h
          · simp at h
          · exact ihs _ _ _ (by omega) h

theorem goMatchAux_err_not_matched (p n : List Char)
    (h : (goMatchAux p n).2 = true) : (goMatchAux p n).1 = false := by
  by_contra hm
  simp only [Bool.not_eq_false] at hm
  exact (goMatch_not_true_true_aux (p.length + n.length)).1 p n le_rfl
    (by rw [Prod.ext_iff]; exact ⟨hm, h⟩)

theorem core_skips_malformed (p : String)
    (hbad : ∀ n : String, (filepathMatch p n).2 = true)
    (name relPath : String) (isDir : Bool) :
    ∀ pats1 pats2 : List String,
      getExclusionReasonCore (pats1 ++ p :: pats2) name relPath isDir =
        getExclusionReasonCore (pats1 ++ pats2) name relPath isDir := by
  have hfalse : ∀ n : String, (filepathMatch p n).1 = false := fun n =>
    goMatchAux_err_not_matched _ _ (hbad n)
  have hpp : patternProbe name relPath isDir p = false := by
    rw [patternProbe, hfalse name, hfalse relPath]
    simp only [Bool.false_or]
    cases isDir
    · rfl
    · simp only [Bool.true_and]
      rw [List.any_eq_false]
      intro comp hmem
      simp [hfalse comp]
  intro pats1 pats2
  rw [getExclusionReasonCore_eq_find, getExclusionReasonCore_eq_find]
  have hfind : (pats1 ++ p :: pats2).find? (patternProbe name relPath isDir) =
      (pats1 ++ pats2).find? (patternProbe name relPath isDir) := by
    simp [List.find?_append, List.find?_cons, hpp]
  rw [hfind]

/-- C6: a malformed glob pattern — one on which matching reports an
error for every candidate — is treated as non-matching: it never causes
a path to be excluded on its own, no matching error or panic propagates
out of GetExclusionReason or ShouldExclude (both are total and their
result is as if the pattern were absent), and matching against the
other patterns of the filter proceeds unaffected. -/
theorem C6_malformed_pattern_harmless (p : String)
    (hbad : ∀ n : String, (filepathMatch p n).2 = true)
    (pats1 pats2 : List String) (path baseDir : String) (isDir : Bool) :
    GetExclusionReason (pats1 ++ p :: pats2) path baseDir isDir =
      GetExclusionReason (pats1 ++ pats2) path baseDir isDir ∧
    ShouldExclude (pats1 ++ p :: pats2) path baseDir isDir =
      ShouldExclude (pats1 ++ pats2) path baseDir isDir := by
  have hg : GetExclusionReason (pats1 ++ p :: pats2) path baseDir isDir =
      GetExclusionReason (pats1 ++ pats2) path baseDir isDir := by
    rw [GetExclusionReason, GetExclusionReason]
    exact core_skips_malformed p hbad _ _ isDir pats1 pats2
  exact ⟨hg, by rw [ShouldExclude, ShouldExclude, hg]⟩

theorem parseRanges_nil (r : Char) (neg acc : Bool) (k : Nat) :
    parseRanges r neg [] acc k = .err := by
  rw [parseRanges]
  simp [getEsc]

theorem parseRangesB_nil (r : Char) (neg acc : Bool) (k : Nat) :
    parseRangesB r neg [] acc k = .err := by
  simp only [parseRangesB]
  split
  · rfl
  · rename_i m rest heq
    rw [parseRanges_nil] at heq
    simp at heq

theorem matchChunk_lbrack_err (s : List Char) (f : Bool) :
    matchChunk ['['] s f = .err := by
  rw [matchChunk]
  simp [negSplit, parseRangesB_nil]

theorem filepathMatch_lbrack_err (n : String) :
    (filepathMatch "[" n).2 = true := by
  show (goMatchAux ['['] n.data).2 = true
  rw [goMatchAux]
  have hsc : scanChunk ['['] = (false, ['['], []) := rfl
  simp [hsc, matchChunk_lbrack_err]

theorem dry_vis_shape :
    (∀ e : FSEntry, ∀ (pats rel : List String),
      ∀ v ∈ (dryEntry pats rel e).2.2, ∃ s, v = rel ++ entryName e :: s) ∧
    (∀ es : List FSEntry, ∀ (pats rel : List String),
      ∀ v ∈ (dryEntries pats rel es).2.2,
        ∃ e' ∈ es, ∃ s, v = rel ++ entryName e' :: s) := by
  apply fsInd
  · intro n c r pats rel v hv
    rw [dryEntry] at hv
    split at hv
    · simp only [List.mem_singleton] at hv
      exact ⟨[], by simp [hv, entryName]⟩
    · simp only [List.mem_singleton] at hv
      exact ⟨[], by simp [hv, entryName]⟩
  · intro n es ih pats rel v hv
    rw [dryEntry] at hv
    split at hv
    · simp only [List.mem_singleton] at hv
      exact ⟨[], by simp [hv, entryName]⟩
    · simp only [List.mem_cons] at hv
      rcases hv with hv | hv
      · exact ⟨[], by simp [hv, entryName]⟩
      · obtain ⟨e', -, s, hs⟩ := ih pats (rel ++ [n]) v hv
        exact ⟨entryName e' :: s, by simp [hs, entryName]⟩
  · intro pats rel v hv
    rw [dryEntries] at hv
    simp at hv
  · intro e es ihe ihes pats rel v hv
    rw [dryEntries] at hv
    simp only [List.mem_append] at hv
    rcases hv with hv | hv
    · obtain ⟨s, hs⟩ := ihe pats rel v hv
      exact ⟨e, List.mem_cons_self e es, s, hs⟩
    · obtain ⟨e', he', s, hs⟩ := ihes pats rel v hv
      exact ⟨e', List.mem_cons_of_mem e he', s, hs⟩

theorem dry_vis_nodup :
    (∀ e : FSEntry, ∀ (pats rel : List String), wfEntry e = true →
      (dryEntry pats rel e).2.2.Nodup) ∧
    (∀ es : List FSEntry, ∀ (pats rel : List String), wfEntries es = true →
      (dryEntries pats rel es).2.2.Nodup) := by
  apply fsInd
  · intro n c r pats rel hwf
    rw [dryEntry]
    split <;> simp
  · intro n es ih pats rel hwf
    rw [wfEntry] at hwf
    simp only [Bool.and_eq_true] at hwf
    rw [dryEntry]
    split
    · simp
    · simp only [List.nodup_cons]
      refine ⟨?_, ih pats (rel ++ [n]) hwf.2⟩
      intro hmem
      obtain ⟨e', -, s, hs⟩ := dry_vis_shape.2 es pats (rel ++ [n]) _ hmem
      have := congrArg List.length hs
      simp at this
  · intro pats rel hwf
    rw [dryEntries]
    simp
  · intro e es ihe ihes pats rel hwf
    rw [wfEntries] at hwf
    simp only [Bool.and_eq_true] at hwf
    rw [dryEntries]
    refine List.Nodup.append (ihe pats rel hwf.1.1) (ihes pats rel hwf.2) ?_
    intro v hv1 hv2
    obtain ⟨s1, hs1⟩ := dry_vis_shape.1 e pats rel v hv1
    obtain ⟨e', he', s2, hs2⟩ := dry_vis_shape.2 es pats rel v hv2
    rw [hs1] at hs2
    have hn := List.append_cancel_left hs2
    simp only [List.cons.injEq] at hn
    have hcontains : (es.map entryName).contains (entryName e) = true :=
      List.elem_eq_true_of_mem (List.mem_map.mpr ⟨e', he', hn.1.symm⟩)
    have := hwf.1.2
    simp only [Bool.not_eq_true'] at this
    rw [hcontains] at this
    simp at this

theorem dry_perm :
    (∀ e : FSEntry, ∀ (pats rel : List String),
      ((dryEntry pats rel e).1.map FileInfo.RelComps ++
       (dryEntry pats rel e).2.1.map FileInfo.RelComps).Perm
        (dryEntry pats rel e).2.2) ∧
    (∀ es : List FSEntry, ∀ (pats rel : List String),
      ((dryEntries pats rel es).1.map FileInfo.RelComps ++
       (dryEntries pats rel es).2.1.map FileInfo.RelComps).Perm
        (dryEntries pats rel es).2.2) := by
  apply fsInd
  · intro n c r pats rel
    rw [dryEntry]
    split <;> simp
  · intro n es ih pats rel
    rw [dryEntry]
    split
    · simp
    · simp only [List.map_cons, List.cons_append]
      exact List.Perm.cons _ (ih pats (rel ++ [n]))
  · intro pats rel
    rw [dryEntries]
    simp
  · intro e es ihe ihes pats rel
    rw [dryEntries]
    simp only [List.map_append]
    refine List.Perm.trans ?_ (List.Perm.append (ihe pats rel) (ihes pats rel))
    simp only [List.append_assoc]
    exact List.Perm.append_left _ (List.perm_append_comm_assoc _ _ _)

/-- C8: in dry-run mode, for every well-formed directory tree and every
filter, the visited entries are exactly the disjoint union of the included
and the excluded list: the two lists of relative-component paths together
are a permutation of the visited trace, and no path occurs in both. -/
theorem C8_dry_run_partition (pats : List String) (base : String)
    (root : FSEntry) (hwf : wfEntry root = true) :
    (((DryRun pats base (some root)).1.1.map FileInfo.RelComps ++
      (DryRun pats base (some root)).1.2.1.map FileInfo.RelComps).Perm
        (DryRun pats base (some root)).1.2.2) ∧
    List.Disjoint ((DryRun pats base (some root)).1.1.map FileInfo.RelComps)
      ((DryRun pats base (some root)).1.2.1.map FileInfo.RelComps) := by
  rw [DryRun.eq_def]
  split
  · next heq => simp at heq
  · next e heq =>
    injection heq with heq
    subst heq
    split
    · constructor <;> simp
    · split
      · constructor <;> simp
      · next nm entries hnone =>
        rw [wfEntry] at hwf
        simp only [Bool.and_eq_true] at hwf
        have hperm : (((⟨[], ".", true, false, false, none⟩ : FileInfo) ::
              (dryEntries pats [] entries).1).map FileInfo.RelComps ++
            (dryEntries pats [] entries).2.1.map FileInfo.RelComps).Perm
              ([] :: (dryEntries pats [] entries).2.2) := by
          simp only [List.map_cons, List.cons_append]
          exact List.Perm.cons _ (dry_perm.2 entries pats [])
        refine ⟨hperm, ?_⟩
        have hnd : ([] :: (dryEntries pats [] entries).2.2).Nodup := by
          rw [List.nodup_cons]
          refine ⟨?_, dry_vis_nodup.2 entries pats [] hwf.2⟩
          intro hmem
          obtain ⟨e', -, s, hs⟩ := dry_vis_shape.2 entries pats [] _ hmem
          have := congrArg List.length hs
          simp at this
        have hnd2 := hperm.symm.nodup hnd
        have := (List.nodup_append.mp hnd2).2.2
        simp only [List.map_cons] at this ⊢
        intro x hx hx2
        exact this hx hx2

theorem C6_malformed_pattern_harmless_witness :
    (∀ n : String, (filepathMatch "[" n).2 = true) ∧
    (GetExclusionReason ["node_modules", "["] "/a/b" "/a" true =
       GetExclusionReason ["node_modules"] "/a/b" "/a" true ∧
     ShouldExclude ["node_modules", "["] "/a/b" "/a" true =
       ShouldExclude ["node_modules"] "/a/b" "/a" true) :=
  ⟨filepathMatch_lbrack_err,
   C6_malformed_pattern_harmless "[" filepathMatch_lbrack_err
     ["node_modules"] [] "/a/b" "/a" true⟩

theorem C10_dry_run_absorbs_read_failures_witness :
    getExclusionReasonCore [] "a.bin" (relPathOf ["a.bin"]) false = none ∧
    (dryEntry [] [] (.file "a.bin" [0] false) =
       ([{ RelComps := ["a.bin"], RelPath := relPathOf ["a.bin"],
           IsDir := false, IsText := false, Excluded := false,
           Reason := none }], [], [["a.bin"]]) ∧
     isTextFile false [0] = false ∧
     (∀ (base : String) (t : FSEntry), (DryRun [] base (some t)).2 = none) ∧
     (processFile (relPathOf ["a.bin"]) [0] false).2 =
       some (.ioError (relPathOf ["a.bin"]))) :=
  ⟨rfl, C10_dry_run_absorbs_read_failures [] [] "a.bin" [0] rfl⟩

theorem C8_dry_run_partition_witness :
    wfEntry (.dir "d" [.file "a.txt" [] true, .file "x" [] true]) = true ∧
    ((((DryRun ["x"] "d"
          (some (.dir "d" [.file "a.txt" [] true, .file "x" [] true]))).1.1.map
            FileInfo.RelComps ++
       (DryRun ["x"] "d"
          (some (.dir "d" [.file "a.txt" [] true, .file "x" [] true]))).1.2.1.map
            FileInfo.RelComps).Perm
         (DryRun ["x"] "d"
            (some (.dir "d" [.file "a.txt" [] true, .file "x" [] true]))).1.2.2) ∧
     List.Disjoint
       ((DryRun ["x"] "d"
           (some (.dir "d" [.file "a.txt" [] true, .file "x" [] true]))).1.1.map
             FileInfo.RelComps)
       ((DryRun ["x"] "d"
           (some (.dir "d" [.file "a.txt" [] true, .file "x" [] true]))).1.2.1.map
             FileInfo.RelComps)) :=
  ⟨rfl, C8_dry_run_partition ["x"] "d"
    (.dir "d" [.file "a.txt" [] true, .file "x" [] true]) rfl⟩

theorem matchChunk_nil_eq (s : List Char) (f : Bool) :
    matchChunk [] s f = if f then .nomatch else .ok s := by
  rw [matchChunk]

theorem parseRanges_class_a (r : Char) (neg : Bool) :
    parseRanges r neg ['a', ']'] false 0 =
      .ok (decide ('a' ≤ r) && decide (r ≤ 'a')) [] := by
  rw [parseRanges, if_neg (by decide)]
  show parseRanges r neg [']'] (false || (decide ('a' ≤ r) && decide (r ≤ 'a'))) (0 + 1) = _
  rw [parseRanges, if_pos (by decide)]
  simp

theorem parseRangesB_class_a (r : Char) (neg : Bool) :
    parseRangesB r neg ['a', ']'] false 0 =
      .ok (decide ('a' ≤ r) && decide (r ≤ 'a')) [] (by decide) := by
  simp only [parseRangesB]
  split
  · next heq =>
    rw [parseRanges_class_a] at heq
    simp at heq
  · next m rest heq =>
    rw [parseRanges_class_a] at heq
    simp only [RangeRes.ok.injEq] at heq
    obtain ⟨h1, h2⟩ := heq
    subst h1
    subst h2
    rfl

theorem parseRangesB_eq_err {r : Char} {neg : Bool} {chunk : List Char}
    {acc : Bool} {k : Nat} (h : parseRangesB r neg chunk acc k = .err) :
    parseRanges r neg chunk acc k = .err := by
  simp only [parseRangesB] at h
  split at h
  · next heq => exact heq
  · next m rest heq => simp at h

theorem parseRangesB_eq_ok {r : Char} {neg : Bool} {chunk : List Char}
    {acc : Bool} {k : Nat} {m : Bool} {rest : List Char}
    {hlt : rest.length < chunk.length}
    (h : parseRangesB r neg chunk acc k = .ok m rest hlt) :
    parseRanges r neg chunk acc k = .ok m rest := by
  simp only [parseRangesB] at h
  split at h
  · next heq => simp at h
  · next m0 rest0 heq =>
    injection h with h1 h2
    subst h1
    subst h2
    exact heq

theorem matchChunk_class_a (c : Char) (cs : List Char) :
    matchChunk ['[', 'a', ']'] (c :: cs) false =
      if c = 'a' then .ok cs else .nomatch := by
  have hns : negSplit ['a', ']'] = (false, ['a', ']']) := rfl
  have hcl : classR false (c :: cs) = (c, cs) := rfl
  rw [matchChunk, if_pos rfl]
  simp only [List.isEmpty_cons, Bool.or_false, hns, hcl, parseRangesB_class_a]
  split
  · next heq =>
    have hpr := parseRangesB_eq_err heq
    rw [show (negSplit ['a', ']']).2 = ['a', ']'] from rfl] at hpr
    rw [parseRanges_class_a] at hpr
    exact absurd hpr (by simp)
  · next m c2 hlt heq =>
    have hpr := parseRangesB_eq_ok heq
    rw [show (negSplit ['a', ']']).2 = ['a', ']'] from rfl] at hpr
    rw [parseRanges_class_a] at hpr
    simp only [RangeRes.ok.injEq] at hpr
    obtain ⟨h1, h2⟩ := hpr
    subst h1
    subst h2
    rw [matchChunk_nil_eq]
    by_cases hc : c = 'a'
    · subst hc
      rw [if_pos rfl, if_neg (by decide)]
    · rw [if_neg hc]
      have hx : (decide ('a' ≤ c) && decide (c ≤ 'a')) = false := by
        by_cases h1 : 'a' ≤ c
        · by_cases h2 : c ≤ 'a'
          · exact absurd (le_antisymm h2 h1) hc
          · simp [h2]
        · simp [h1]
      rw [hx]
      rfl

theorem matchChunk_class_a_nil :
    matchChunk ['[', 'a', ']'] [] false = .nomatch := by
  rw [matchChunk, if_pos rfl]
  split
  · next heq =>
    have hpr := parseRangesB_eq_err heq
    rw [show (negSplit ['a', ']']).2 = ['a', ']'] from rfl] at hpr
    rw [parseRanges_class_a] at hpr
    exact absurd hpr (by simp)
  · next m c2 hlt heq =>
    have hpr := parseRangesB_eq_ok heq
    rw [show (negSplit ['a', ']']).2 = ['a', ']'] from rfl] at hpr
    rw [parseRanges_class_a] at hpr
    simp only [RangeRes.ok.injEq] at hpr
    obtain ⟨h1, h2⟩ := hpr
    subst h1
    subst h2
    rw [matchChunk_nil_eq]
    rfl

theorem finishCheck_nil : finishCheck [] = (false, false) := by
  have hsyn : syntaxChk [] = false := by
    rw [syntaxChk]
    simp
  rw [finishCheck, hsyn]
  simp

theorem goMatch_class_a_ne (name : List Char) (hne : name.head? ≠ some 'a') :
    goMatchAux ['[', 'a', ']'] name = (false, false) := by
  have hsc : scanChunk ['[', 'a', ']'] = (false, ['[', 'a', ']'], []) := rfl
  rw [goMatchAux, dif_neg (by simp)]
  cases name with
  | nil =>
    simp [hsc, matchChunk_class_a_nil, finishCheck_nil]
  | cons c cs =>
    have hcne : ¬c = 'a' := by
      intro h
      exact hne (by simp [h])
    simp [hsc, matchChunk_class_a, hcne, finishCheck_nil]

theorem filepathMatch_class_a_ne (n : String) (hne : n.data.head? ≠ some 'a') :
    filepathMatch "[a]" n = (false, false) := by
  have hd : ("[a]" : String).data = ['[', 'a', ']'] := rfl
  rw [filepathMatch, hd]
  exact goMatch_class_a_ne n.data hne

theorem scanBody_lit (l : List Char)
    (h : ∀ c ∈ l, ¬(c = '*' ∨ c = '?' ∨ c = '[' ∨ c = '\\')) :
    scanBody l false = (l, []) := by
  induction l with
  | nil => rfl
  | cons c rest ih =>
    have hc := h c (List.mem_cons_self c rest)
    push_neg at hc
    obtain ⟨h1, h2, h3, h4⟩ := hc
    rw [scanBody.eq_def]
    simp only []
    rw [if_neg h4, if_neg h3]
    by_cases hb : c = ']'
    · rw [if_pos hb]
      rw [ih (fun x hx => h x (List.mem_cons_of_mem c hx))]
    · rw [if_neg hb, if_neg h1]
      rw [ih (fun x hx => h x (List.mem_cons_of_mem c hx))]

theorem scanChunk_lit (l : List Char) (hne : l ≠ [])
    (h : ∀ c ∈ l, ¬(c = '*' ∨ c = '?' ∨ c = '[' ∨ c = '\\')) :
    scanChunk l = (false, l, []) := by
  have hsb := scanBody_lit l h
  cases l with
  | nil => exact absurd rfl hne
  | cons c rest =>
    have h1 : ¬c = '*' := fun hcs => h c (List.mem_cons_self c rest) (Or.inl hcs)
    have hds : dropStars (c :: rest) = (false, c :: rest) := by
      rw [dropStars, if_neg h1]
    simp [scanChunk, hds, hsb]

theorem matchChunk_lit (chunk : List Char)
    (h : ∀ c ∈ chunk, ¬(c = '*' ∨ c = '?' ∨ c = '[' ∨ c = '\\')) (s : List Char) :
    matchChunk chunk (chunk ++ s) false = .ok s := by
  induction chunk with
  | nil =>
    rw [List.nil_append, matchChunk_nil_eq]
    simp
  | cons c rest ih =>
    have hm := h c (List.mem_cons_self c rest)
    push_neg at hm
    obtain ⟨h1, h2, h3, h4⟩ := hm
    rw [matchChunk]
    rw [if_neg h3, if_neg h2, if_neg h4]
    rw [if_neg (by simp)]
    simp only [List.cons_append, List.tail_cons, List.head?_cons, beq_self_eq_true,
      Bool.not_true]
    exact ih (fun x hx => h x (List.mem_cons_of_mem c hx))

theorem goMatch_nil_nil : goMatchAux [] [] = (true, false) := by
  rw [goMatchAux]
  simp

theorem goMatch_lit_self (l : List Char)
    (h : ∀ c ∈ l, ¬(c = '*' ∨ c = '?' ∨ c = '[' ∨ c = '\\')) :
    goMatchAux l l = (true, false) := by
  cases l with
  | nil => exact goMatch_nil_nil
  | cons c rest =>
    have hsc := scanChunk_lit (c :: rest) (by simp) h
    have hmc0 := matchChunk_lit (c :: rest) h []
    rw [List.append_nil] at hmc0
    rw [goMatchAux, dif_neg (by simp)]
    simp [hsc, hmc0, goMatch_nil_nil]

theorem filepathMatch_self (p : String) (h : hasMeta p = false) :
    (filepathMatch p p).1 = true := by
  have h2 : ∀ c ∈ p.data, ¬(c = '*' ∨ c = '?' ∨ c = '[' ∨ c = '\\') := by
    simpa [hasMeta, List.any_eq_false] using h
  rw [filepathMatch, goMatch_lit_self p.data h2]

theorem splitOn_brack : "[a]".splitOn "/" = ["[a]"] := by
  rw [String.splitOn, if_neg (by decide)]
  rw [String.splitOnAux, if_neg (by decide), if_neg (by decide)]
  rw [String.splitOnAux, if_neg (by decide), if_neg (by decide)]
  rw [String.splitOnAux, if_neg (by decide), if_neg (by decide)]
  rw [String.splitOnAux, if_pos (by decide)]
  decide

theorem splitOn_dot : ".".splitOn "/" = ["."] := by
  rw [String.splitOn, if_neg (by decide)]
  rw [String.splitOnAux, if_neg (by decide), if_neg (by decide)]
  rw [String.splitOnAux, if_pos (by decide)]
  decide

theorem core_isSome_of_name_match {pats : List String} {p : String}
    (hp : p ∈ pats) (name relPath : String) (isDir : Bool)
    (hm : (filepathMatch p name).1 = true) :
    (getExclusionReasonCore pats name relPath isDir).isSome = true := by
  induction pats with
  | nil => simp at hp
  | cons q rest ih =>
    rw [getExclusionReasonCore]
    rcases List.mem_cons.mp hp with h | h
    · subst h
      rw [if_pos hm]
      rfl
    · split
      · rfl
      · split
        · rfl
        · split
          · rfl
          · exact ih h

/-- C3: a pattern that glob-matches a directory's base name — in
particular any metacharacter-free pattern string-equal to it — excludes
that directory and everything beneath it, at every nesting depth: the
walk records only the directory itself and descends no further, and
render mode emits nothing for the subtree.  (String equality alone does
not suffice when the name contains glob metacharacters; see the
accompanying counterexample.) -/
theorem C3_matching_dir_pruned (pats : List String) (p : String)
    (hp : p ∈ pats) (rel : List String) (n : String) (entries : List FSEntry)
    (hm : (filepathMatch p n).1 = true ∨ (p = n ∧ hasMeta p = false)) :
    walkEntry pats rel (.dir n entries) = ([], [rel ++ [n]], none) := by
  have hm2 : (filepathMatch p n).1 = true := by
    rcases hm with h | ⟨heq, hmeta⟩
    · exact h
    · subst heq
      exact filepathMatch_self p hmeta
  have hs := core_isSome_of_name_match hp n (relPathOf (rel ++ [n])) true hm2
  rw [walkEntry]
  simp only [entryName, entryIsDir]
  rw [if_pos hs]

theorem C3_matching_dir_pruned_witness :
    ("node_modules" ∈ ["node_modules"] ∧
     ((filepathMatch "node_modules" "node_modules").1 = true ∨
      ("node_modules" = "node_modules" ∧ hasMeta "node_modules" = false))) ∧
    walkEntry ["node_modules"] [] (.dir "node_modules" [.file "x" [] true]) =
      ([], [["node_modules"]], none) :=
  ⟨⟨List.mem_singleton.mpr rfl, Or.inr ⟨rfl, by decide⟩⟩,
   C3_matching_dir_pruned ["node_modules"] "node_modules"
     (List.mem_singleton.mpr rfl) [] "node_modules" [.file "x" [] true]
     (Or.inr ⟨rfl, by decide⟩)⟩

theorem core_brack_root : getExclusionReasonCore ["[a]"] "p" "." true = none := by
  have h1 := filepathMatch_class_a_ne "p" (by decide)
  have h2 := filepathMatch_class_a_ne "." (by decide)
  simp [getExclusionReasonCore, h1, h2, splitOn_dot]

theorem core_brack_dir : getExclusionReasonCore ["[a]"] "[a]" "[a]" true = none := by
  have h1 := filepathMatch_class_a_ne "[a]" (by decide)
  simp [getExclusionReasonCore, h1, splitOn_brack]

theorem core_brack_file :
    getExclusionReasonCore ["[a]"] "b.txt" "[a]/b.txt" false = none := by
  have h1 := filepathMatch_class_a_ne "b.txt" (by decide)
  have h2 := filepathMatch_class_a_ne "[a]/b.txt" (by decide)
  simp [getExclusionReasonCore, h1, h2]

/-- C3 counterexample: the filter ["[a]"] contains a pattern string-equal
to the base name of the directory "[a]", yet the walk of render mode
descends into that directory — the visited trace contains the entry
beneath it — and emits the file block for the file inside it, because
Match reads "[a]" as a character class that the name "[a]" does not
match. -/
theorem C3_counterexample :
    entryName (FSEntry.dir "[a]" [FSEntry.file "b.txt" (strBytes "inner") true]) =
      "[a]" ∧
    (Scan ["[a]"] "p"
       (some (FSEntry.dir "p"
         [FSEntry.dir "[a]" [FSEntry.file "b.txt" (strBytes "inner") true]]))).2.1 =
      [[], ["[a]"], ["[a]", "b.txt"]] ∧
    (Scan ["[a]"] "p"
       (some (FSEntry.dir "p"
         [FSEntry.dir "[a]" [FSEntry.file "b.txt" (strBytes "inner") true]]))).1 =
      [separator, "file: [a]/b.txt", separator, "    inner", separator] := by
  have hrp1 : relPathOf ["[a]"] = "[a]" := rfl
  have hrp2 : relPathOf ["[a]", "b.txt"] = "[a]/b.txt" := rfl
  have hpf : processFile "[a]/b.txt" (strBytes "inner") true =
      ([separator, "file: [a]/b.txt", separator, "    inner"], none) := by decide
  refine ⟨rfl, ?_, ?_⟩
  · simp [Scan, scanRoot, walkEntries, walkEntry, entryName, entryIsDir,
      core_brack_root, core_brack_dir, core_brack_file, hrp1, hrp2, hpf]
  · simp [Scan, scanRoot, walkEntries, walkEntry, entryName, entryIsDir,
      core_brack_root, core_brack_dir, core_brack_file, hrp1, hrp2, hpf]
